import Mathlib

/-!
# vaporvisuals: the audio feature extractor, the frame driver and two draw passes

A shallow embedding of `src/vaporwave-audio-visualizer.jsx`.

* JavaScript numbers are modelled in exact arithmetic: a finite number is a
  rational, and every non-finite result (`NaN`, `Infinity`, `-Infinity`) is
  the single value `none`.  Addition and multiplication keep a non-finite
  operand non-finite, so `none` is absorbing for them; division is only ever
  performed by a finite divisor.
* The literals `0.1`, `0.4`, `0.3`, `0.6`, `1.5` are read as exact decimals.
* A `for (let i = lo; i < hi; i++)` loop whose body leaves `i` alone runs
  its body for `i = lo, lo + 1, ...`, exactly `hi - lo` times.
-/

namespace VaporVisuals

/-! ## Numbers -/

/-- A JavaScript number: `some q` is the finite value `q`, `none` is a
non-finite value (`NaN` or an infinity). -/
abbrev JSNum := Option ℚ

/-- JavaScript `a + b`. -/
def JSNum.add (a b : JSNum) : JSNum :=
  match a, b with
  | some x, some y => some (x + y)
  | _, _ => none

/-- JavaScript `a * b`. -/
def JSNum.mul (a b : JSNum) : JSNum :=
  match a, b with
  | some x, some y => some (x * y)
  | _, _ => none

/-- JavaScript `a / b` for a finite divisor `b`: a zero divisor gives `NaN`
(for `0 / 0`) or an infinity, both non-finite. -/
def JSNum.div (a : JSNum) (b : ℚ) : JSNum :=
  match a with
  | some x => if b = 0 then none else some (x / b)
  | none => none

/-! ## Loops -/

/-- The iterations of a counting loop: `n` more rounds, the loop variable
standing at `i`. -/
def forLoopAux {σ : Type} (body : ℕ → σ → σ) : ℕ → ℕ → σ → σ
  | 0, _, s => s
  | n + 1, i, s => forLoopAux body n (i + 1) (body i s)

/-- The loop `for (let i = lo; i < hi; i++) s = body(i, s)`. -/
def forLoop {σ : Type} (lo hi : ℕ) (body : ℕ → σ → σ) (s : σ) : σ :=
  forLoopAux body (hi - lo) lo s

/-- The bin indices a loop `for (let i = lo; i < hi; i++)` reads, in the
order it reads them. -/
def loopIndices (lo hi : ℕ) : List ℕ :=
  forLoop lo hi (fun i visited => visited ++ [i]) []

/-! ## Feature extractor (`getAudioData`) -/

/-- The element read `data[i]` of a `Uint8Array`: `undefined` outside the
array, which turns a sum into `NaN`. -/
def readBin (data : List ℕ) (i : ℕ) : JSNum :=
  (data.get? i).map (fun v => (v : ℚ))

/-- The accumulation `for (let i = lo; i < hi; i++) acc += data[i]`,
started from `acc = 0` (lines 92-96). -/
def sumLoop (data : List ℕ) (lo hi : ℕ) : JSNum :=
  forLoop lo hi (fun i acc => JSNum.add acc (readBin data i)) (some 0)

/-- The bound `bassEnd = Math.floor(len * 0.1)` (line 89). -/
def bassEnd (len : ℕ) : ℕ := ⌊(len : ℚ) * (1 / 10)⌋₊

/-- The bound `midEnd = Math.floor(len * 0.4)` (line 90). -/
def midEnd (len : ℕ) : ℕ := ⌊(len : ℚ) * (4 / 10)⌋₊

/-- The four channels of `smoothedValuesRef.current`. -/
structure FeatureVector where
  bass : JSNum
  mid : JSNum
  high : JSNum
  overall : JSNum
  deriving DecidableEq

/-- A feature vector whose four channels are finite. -/
def FeatureVector.finite (b m h o : ℚ) : FeatureVector :=
  ⟨some b, some m, some h, some o⟩

/-- The initial value of `smoothedValuesRef` (lines 26-31). -/
def FeatureVector.zero : FeatureVector := FeatureVector.finite 0 0 0 0

/-- The band names of a feature vector. -/
inductive Channel
  | bass
  | mid
  | high
  | overall
  deriving DecidableEq

/-- The value of one channel. -/
def FeatureVector.get (v : FeatureVector) : Channel → JSNum
  | Channel.bass => v.bass
  | Channel.mid => v.mid
  | Channel.high => v.high
  | Channel.overall => v.overall

/-- The three band sums (lines 86-96): the bounds `bassEnd` and `midEnd` of
the sample length and the three accumulation loops, as they stand in
`bass`, `mid`, `high` before the divisions. -/
def bandSums (data : List ℕ) : JSNum × JSNum × JSNum :=
  let len := data.length
  let bassEnd := bassEnd len
  let midEnd := midEnd len
  let bass := sumLoop data 0 bassEnd
  let mid := sumLoop data bassEnd midEnd
  let high := sumLoop data midEnd len
  (bass, mid, high)

/-- The band means before the boost (lines 86-100): the three sums, each
divided by its band width and by 255. -/
def bandMeans (data : List ℕ) : JSNum × JSNum × JSNum :=
  let len := data.length
  let bassEnd := bassEnd len
  let midEnd := midEnd len
  let (bass, mid, high) := bandSums data
  let bass := JSNum.div (JSNum.div bass (bassEnd : ℚ)) 255
  let mid := JSNum.div (JSNum.div mid ((midEnd : ℚ) - (bassEnd : ℚ))) 255
  let high := JSNum.div (JSNum.div high ((len : ℚ) - (midEnd : ℚ))) 255
  (bass, mid, high)

/-- The raw features before smoothing (lines 86-105): band means, the bass
boost `bass *= (1 + bassBoost / 100)`, and
`overall = (bass + mid + high) / 3`. -/
def rawFeatures (bassBoost : ℚ) (data : List ℕ) : FeatureVector :=
  let (bass, mid, high) := bandMeans data
  let bass := JSNum.mul bass (some (1 + bassBoost / 100))
  let overall := JSNum.div (JSNum.add (JSNum.add bass mid) high) 3
  ⟨bass, mid, high, overall⟩

/-- One channel of the smoothing step (lines 110-113):
`prev * smoothing + raw * (1 - smoothing)`. -/
def smoothChannel (smoothing : ℚ) (prev raw : JSNum) : JSNum :=
  JSNum.add (JSNum.mul prev (some smoothing)) (JSNum.mul raw (some (1 - smoothing)))

/-- The smoothing step (lines 108-114), with
`smoothing = 1 - (speedSmoothing / 100)`. -/
def smooth (speedSmoothing : ℚ) (prev raw : FeatureVector) : FeatureVector :=
  let smoothing := 1 - speedSmoothing / 100
  ⟨smoothChannel smoothing prev.bass raw.bass,
   smoothChannel smoothing prev.mid raw.mid,
   smoothChannel smoothing prev.high raw.high,
   smoothChannel smoothing prev.overall raw.overall⟩

/-- The function `getAudioData` (lines 81-117).  `data` is the byte
frequency sample when an analyser and its buffer exist, `none` otherwise;
`smoothed` is `smoothedValuesRef.current` on entry.  The result is the
returned value (`none` for `null`) and `smoothedValuesRef.current` on
exit. -/
def getAudioData (bassBoost speedSmoothing : ℚ) (smoothed : FeatureVector)
    (data : Option (List ℕ)) : Option FeatureVector × FeatureVector :=
  match data with
  | none => (none, smoothed)
  | some data =>
    let next := smooth speedSmoothing smoothed (rawFeatures bassBoost data)
    (some next, next)

/-- The smoothed state after `n` calls of `getAudioData` on the same sample
with the same parameters. -/
def repeatCalls (bassBoost speedSmoothing : ℚ) (data : List ℕ) :
    ℕ → FeatureVector → FeatureVector
  | 0, st => st
  | n + 1, st =>
    repeatCalls bassBoost speedSmoothing data n
      (getAudioData bassBoost speedSmoothing st (some data)).2

/-- One call of `getAudioData`: its sample and the values of `bassBoost` and
`speedSmoothing` it reads. -/
structure Call where
  data : List ℕ
  bassBoost : ℚ
  speedSmoothing : ℚ

/-- The smoothed state after a sequence of calls of `getAudioData`. -/
def runCalls (st : FeatureVector) (calls : List Call) : FeatureVector :=
  calls.foldl (fun st c => (getAudioData c.bassBoost c.speedSmoothing st (some c.data)).2) st

/-! ## Frame driver (`startAudioCapture`, `stopAudioCapture`, effect cleanup) -/

/-- The refs the capture life cycle touches, and a log of the calls made on
the capture resources.  The `k`-th successful start (counting from 0)
acquires stream `k` and audio context `k`; frame handles count from 1. -/
structure Driver where
  streamRef : Option ℕ
  audioContextRef : Option ℕ
  animationRef : Option ℕ
  isListening : Bool
  acquired : ℕ
  frames : ℕ
  trackStops : List ℕ
  closes : List ℕ
  cancels : List ℕ
  deriving DecidableEq

/-- The component just mounted: every ref is `null`, nothing acquired. -/
def Driver.init : Driver :=
  ⟨none, none, none, false, 0, 0, [], [], []⟩

/-- The events of the driver. -/
inductive Event
  | startSucceeds
  | stop
  | teardown
  deriving DecidableEq

/-- The body of `startAudioCapture` when `getUserMedia` resolves and nothing
throws (lines 35-61): both refs are overwritten with the fresh resources,
and `animate()` stores the handle of the frame it requests. -/
def startAudioCapture (d : Driver) : Driver :=
  { d with
    streamRef := some d.acquired
    audioContextRef := some d.acquired
    acquired := d.acquired + 1
    isListening := true
    animationRef := some (d.frames + 1)
    frames := d.frames + 1 }

/-- The function `stopAudioCapture` (lines 68-79): each of the three refs is
tested and, when set, used; no ref is written. -/
def stopAudioCapture (d : Driver) : Driver :=
  let cancels := match d.animationRef with
    | some f => f :: d.cancels
    | none => d.cancels
  let trackStops := match d.streamRef with
    | some s => s :: d.trackStops
    | none => d.trackStops
  let closes := match d.audioContextRef with
    | some c => c :: d.closes
    | none => d.closes
  { d with cancels := cancels, trackStops := trackStops, closes := closes, isListening := false }

/-- One event: the effect cleanup (lines 301-304) calls `stopAudioCapture`. -/
def step (d : Driver) : Event → Driver
  | Event.startSucceeds => startAudioCapture d
  | Event.stop => stopAudioCapture d
  | Event.teardown => stopAudioCapture d

/-- A sequence of events from a given state. -/
def run (d : Driver) (events : List Event) : Driver :=
  events.foldl step d

/-- How often the tracks of stream `k` were stopped. -/
def Driver.streamReleases (d : Driver) (k : ℕ) : ℕ := d.trackStops.count k

/-- How often audio context `k` was closed. -/
def Driver.contextReleases (d : Driver) (k : ℕ) : ℕ := d.closes.count k

/-! ## Mountain pass of `drawVaporwaveScene` -/

/-- The constant `mountainLayers` (line 164). -/
def mountainLayers : ℕ := 3

/-- The value `layerDepth = layer / mountainLayers` (line 166). -/
def layerDepth (layer : ℕ) : ℚ := (layer : ℚ) / (mountainLayers : ℚ)

/-- The alpha of the layer's `fillStyle`, `0.6 - layerDepth * 0.3`
(line 170). -/
def fillAlpha (layer : ℕ) : ℚ := 0.6 - layerDepth layer * 0.3

/-- The fills of the mountain loop (lines 165-191) in the order they are
issued: the layer index and the alpha it is filled with. -/
def mountainFills : List (ℕ × ℚ) :=
  forLoop 0 mountainLayers (fun layer fills => fills ++ [(layer, fillAlpha layer)]) []

/-! ## Particle pass of `drawVaporwaveScene` -/

/-- The constant `particleCount` (line 264). -/
def particleCount : ℕ := 50

/-- The radius `size = 1 + Math.sin(time * 2 + i) * 1.5 + audioData.high * 2`
handed to `ctx.arc` (line 268), over any field and for any sine function. -/
def particleSize {α : Type} [Field α] (sin : α → α) (time : α) (i : ℕ) (high : α) : α :=
  1 + sin (time * 2 + (i : α)) * 1.5 + high * 2

/-! ## Auxiliary definitions -/

/-- The exact sum of the `n` bins from index `i` on. -/
def binSum (data : List ℕ) (i n : ℕ) : ℚ :=
  ((List.range' i n).map (fun k => (data.getD k 0 : ℚ))).sum

/-- The exact sum of the bins at the indices of a list. -/
def sumOver (data : List ℕ) (indices : List ℕ) : ℚ :=
  (indices.map (fun k => (data.getD k 0 : ℚ))).sum

/-- The sample of length `len` whose first `⌊len / 10⌋` bins are 255 and
whose other bins are 0. -/
def bassOnlySample (len : ℕ) : List ℕ :=
  List.replicate (len / 10) 255 ++ List.replicate (len - len / 10) 0

/-! ## Basic facts on loops and band bounds -/

theorem forLoopAux_indices (n : ℕ) : ∀ (i : ℕ) (acc : List ℕ),
    forLoopAux (fun i visited => visited ++ [i]) n i acc = acc ++ List.range' i n := by
  induction n with
  | zero => intro i acc; simp [forLoopAux]
  | succ n ih =>
    intro i acc
    simp [forLoopAux, ih, List.range'_succ]

theorem loopIndices_eq (lo hi : ℕ) : loopIndices lo hi = List.range' lo (hi - lo) := by
  simp [loopIndices, forLoop, forLoopAux_indices]

theorem mem_loopIndices (lo hi i : ℕ) : i ∈ loopIndices lo hi ↔ lo ≤ i ∧ i < hi := by
  rw [loopIndices_eq, List.mem_range'_1]
  omega

theorem bassEnd_eq (len : ℕ) : bassEnd len = len / 10 := by
  unfold bassEnd
  rw [mul_one_div]
  exact_mod_cast @Nat.floor_div_eq_div ℚ _ _ len 10

theorem midEnd_eq (len : ℕ) : midEnd len = 4 * len / 10 := by
  unfold midEnd
  have h : (len : ℚ) * (4 / 10) = ((4 * len : ℕ) : ℚ) / ((10 : ℕ) : ℚ) := by
    push_cast
    ring
  rw [h]
  exact @Nat.floor_div_eq_div ℚ _ _ (4 * len) 10

theorem readBin_of_lt (data : List ℕ) (i : ℕ) (h : i < data.length) :
    readBin data i = some (data.getD i 0 : ℚ) := by
  simp [readBin, List.getD, List.get?_eq_get h, List.getElem?_eq_getElem h]

theorem sumLoopAux_finite (data : List ℕ) (n : ℕ) : ∀ (i : ℕ) (a : ℚ),
    i + n ≤ data.length →
    forLoopAux (fun i acc => JSNum.add acc (readBin data i)) n i (some a)
      = some (a + binSum data i n) := by
  induction n with
  | zero => intro i a _; simp [forLoopAux, binSum]
  | succ n ih =>
    intro i a h
    have hi : i < data.length := by omega
    have hstep : JSNum.add (some a) (readBin data i) = some (a + (data.getD i 0 : ℚ)) := by
      rw [readBin_of_lt data i hi]
      rfl
    show forLoopAux _ n (i + 1) (JSNum.add (some a) (readBin data i)) = _
    rw [hstep, ih (i + 1) _ (by omega)]
    simp [binSum, List.range'_succ, add_assoc]

theorem sumLoop_finite (data : List ℕ) (lo hi : ℕ) (h1 : lo ≤ hi) (h2 : hi ≤ data.length) :
    sumLoop data lo hi = some (binSum data lo (hi - lo)) := by
  unfold sumLoop forLoop
  rw [sumLoopAux_finite data (hi - lo) lo 0 (by omega)]
  simp

theorem band_bounds (len : ℕ) (h : 10 ≤ len) :
    0 < bassEnd len ∧ bassEnd len < midEnd len ∧ midEnd len < len := by
  rw [bassEnd_eq, midEnd_eq]
  omega

theorem band_order (len : ℕ) : bassEnd len ≤ midEnd len ∧ midEnd len ≤ len := by
  rw [bassEnd_eq, midEnd_eq]
  omega

theorem bandMeans_finite (data : List ℕ) (h : 10 ≤ data.length) :
    bandMeans data =
      (some (binSum data 0 (bassEnd data.length) / (bassEnd data.length : ℚ) / 255),
       some (binSum data (bassEnd data.length) (midEnd data.length - bassEnd data.length)
          / ((midEnd data.length : ℚ) - (bassEnd data.length : ℚ)) / 255),
       some (binSum data (midEnd data.length) (data.length - midEnd data.length)
          / ((data.length : ℚ) - (midEnd data.length : ℚ)) / 255)) := by
  obtain ⟨h1, h2, h3⟩ := band_bounds data.length h
  have e1 : (bassEnd data.length : ℚ) ≠ 0 := by
    exact_mod_cast (Nat.pos_iff_ne_zero.mp h1)
  have e2 : (midEnd data.length : ℚ) - (bassEnd data.length : ℚ) ≠ 0 := by
    have : (bassEnd data.length : ℚ) < (midEnd data.length : ℚ) := by exact_mod_cast h2
    linarith
  have e3 : (data.length : ℚ) - (midEnd data.length : ℚ) ≠ 0 := by
    have : (midEnd data.length : ℚ) < (data.length : ℚ) := by exact_mod_cast h3
    linarith
  unfold bandMeans bandSums
  simp only []
  rw [sumLoop_finite data 0 _ (Nat.zero_le _) (by omega),
    sumLoop_finite data _ _ (le_of_lt h2) (by omega),
    sumLoop_finite data _ _ (le_of_lt h3) (le_refl _)]
  simp [JSNum.div, e1, e2, e3]

theorem rawFeatures_finite (bassBoost : ℚ) (data : List ℕ) (h : 10 ≤ data.length) :
    ∃ b m g : ℚ, bandMeans data = (some b, some m, some g) ∧
      rawFeatures bassBoost data =
        FeatureVector.finite (b * (1 + bassBoost / 100)) m g
          ((b * (1 + bassBoost / 100) + m + g) / 3) := by
  refine ⟨_, _, _, bandMeans_finite data h, ?_⟩
  unfold rawFeatures
  rw [bandMeans_finite data h]
  simp [JSNum.div, JSNum.mul, JSNum.add, FeatureVector.finite]

theorem smooth_finite (s a b c d r1 r2 r3 r4 : ℚ) :
    smooth s (FeatureVector.finite a b c d) (FeatureVector.finite r1 r2 r3 r4) =
      FeatureVector.finite
        (a * (1 - s / 100) + r1 * (1 - (1 - s / 100)))
        (b * (1 - s / 100) + r2 * (1 - (1 - s / 100)))
        (c * (1 - s / 100) + r3 * (1 - (1 - s / 100)))
        (d * (1 - s / 100) + r4 * (1 - (1 - s / 100))) := rfl

theorem binSum_const (data : List ℕ) (c : ℕ) (n : ℕ) : ∀ i : ℕ,
    (∀ k, i ≤ k → k < i + n → data.getD k 0 = c) → binSum data i n = (n : ℚ) * (c : ℚ) := by
  induction n with
  | zero => intro i _; simp [binSum]
  | succ n ih =>
    intro i h
    have hrec : binSum data (i + 1) n = (n : ℚ) * (c : ℚ) :=
      ih (i + 1) (fun k hk1 hk2 => h k (by omega) (by omega))
    have hhead : data.getD i 0 = c := h i (le_refl _) (by omega)
    have hsplit : binSum data i (n + 1) = (data.getD i 0 : ℚ) + binSum data (i + 1) n := by
      simp [binSum, List.range'_succ]
    rw [hsplit, hrec, hhead]
    push_cast
    ring

theorem bassOnlySample_length (len : ℕ) : (bassOnlySample len).length = len := by
  simp [bassOnlySample]
  omega

theorem bassOnlySample_getD (len k : ℕ) :
    (bassOnlySample len).getD k 0 = if k < len / 10 then 255 else 0 := by
  unfold bassOnlySample
  by_cases hk : k < len / 10
  · rw [List.getD_append _ _ _ _ (by simpa using hk)]
    simp [hk, List.getD_eq_getElem?_getD, List.getElem?_replicate]
  · rw [List.getD_append_right _ _ _ _ (by simpa using hk)]
    simp only [hk, List.getD_eq_getElem?_getD, List.getElem?_replicate, List.length_replicate,
      if_false]
    split <;> rfl

theorem loopIndices_append (a b : ℕ) (h : a ≤ b) :
    loopIndices 0 a ++ loopIndices a b = loopIndices 0 b := by
  simp only [loopIndices_eq, Nat.sub_zero]
  have := List.range'_append 0 a (b - a) 1
  simp only [Nat.zero_add, Nat.one_mul] at this
  rw [this]
  congr 1
  omega

theorem getAudioData_invariant (bassBoost s : ℚ) (data : List ℕ) (b m g : ℚ)
    (h : 10 ≤ data.length) :
    ∃ b' m' g' : ℚ,
      (getAudioData bassBoost s (FeatureVector.finite b m g ((b + m + g) / 3)) (some data)).2 =
        FeatureVector.finite b' m' g' ((b' + m' + g') / 3) := by
  obtain ⟨rb, rm, rg, _, hraw⟩ := rawFeatures_finite bassBoost data h
  refine ⟨b * (1 - s / 100) + rb * (1 + bassBoost / 100) * (1 - (1 - s / 100)),
    m * (1 - s / 100) + rm * (1 - (1 - s / 100)),
    g * (1 - s / 100) + rg * (1 - (1 - s / 100)), ?_⟩
  simp only [getAudioData]
  rw [hraw, smooth_finite]
  congr 1
  ring

theorem runCalls_invariant (calls : List Call) : ∀ (b m g : ℚ),
    (∀ c ∈ calls, 10 ≤ c.data.length) →
    ∃ b' m' g' : ℚ, runCalls (FeatureVector.finite b m g ((b + m + g) / 3)) calls =
      FeatureVector.finite b' m' g' ((b' + m' + g') / 3) := by
  induction calls with
  | nil => intro b m g _; exact ⟨b, m, g, rfl⟩
  | cons c rest ih =>
    intro b m g h
    obtain ⟨b1, m1, g1, hstep⟩ := getAudioData_invariant c.bassBoost c.speedSmoothing c.data
      b m g (h c (List.mem_cons_self _ _))
    obtain ⟨b', m', g', hfin⟩ := ih b1 m1 g1 (fun c' hc' => h c' (List.mem_cons_of_mem _ hc'))
    refine ⟨b', m', g', ?_⟩
    rw [← hfin, ← hstep]
    rfl

theorem smoothChannel_one (p : JSNum) (r : ℚ) :
    smoothChannel (1 - 0 / 100) p (some r) = p := by
  cases p <;> simp [smoothChannel, JSNum.mul, JSNum.add]

theorem smoothChannel_zero (x r : ℚ) :
    smoothChannel (1 - 100 / 100) (some x) (some r) = some r := by
  simp [smoothChannel, JSNum.mul, JSNum.add]

theorem rawFeatures_loud :
    rawFeatures 0 (List.replicate 10 255) = FeatureVector.finite 1 1 1 1 := by
  simp [rawFeatures, bandMeans, bandSums, bassEnd_eq, midEnd_eq, sumLoop, forLoop, forLoopAux, readBin,
    JSNum.add, JSNum.div, JSNum.mul, FeatureVector.finite]
  norm_num

theorem repeatCalls_finite (bassBoost s : ℚ) (data : List ℕ) (r1 r2 r3 r4 : ℚ)
    (hraw : rawFeatures bassBoost data = FeatureVector.finite r1 r2 r3 r4) (n : ℕ) :
    ∀ a b c d : ℚ, repeatCalls bassBoost s data n (FeatureVector.finite a b c d) =
      FeatureVector.finite (r1 + (1 - s / 100) ^ n * (a - r1)) (r2 + (1 - s / 100) ^ n * (b - r2))
        (r3 + (1 - s / 100) ^ n * (c - r3)) (r4 + (1 - s / 100) ^ n * (d - r4)) := by
  induction n with
  | zero => intro a b c d; simp [repeatCalls]
  | succ n ih =>
    intro a b c d
    simp only [repeatCalls, getAudioData]
    rw [hraw, smooth_finite, ih]
    congr 1 <;> ring

theorem contraction (q x0 r : ℚ) (n : ℕ) (h0 : 0 ≤ q) (h1 : q ≤ 1) :
    (r + q ^ n * (x0 - r)) - r = q ^ n * (x0 - r) ∧
    |(r + q ^ (n + 1) * (x0 - r)) - r| ≤ |(r + q ^ n * (x0 - r)) - r| ∧
    (q < 1 → r + q ^ n * (x0 - r) ≠ r →
      |(r + q ^ (n + 1) * (x0 - r)) - r| < |(r + q ^ n * (x0 - r)) - r|) := by
  have e1 : (r + q ^ n * (x0 - r)) - r = q ^ n * (x0 - r) := by ring
  have e2 : (r + q ^ (n + 1) * (x0 - r)) - r = q * (q ^ n * (x0 - r)) := by ring
  have habs : |q * (q ^ n * (x0 - r))| = q * |q ^ n * (x0 - r)| := by
    rw [abs_mul, abs_of_nonneg h0]
  refine ⟨e1, ?_, ?_⟩
  · rw [e1, e2, habs]
    exact mul_le_of_le_one_left (abs_nonneg _) h1
  · intro hq hne
    rw [e1, e2, habs]
    have hpos : 0 < |q ^ n * (x0 - r)| := by
      apply abs_pos.mpr
      intro hz
      apply hne
      rw [hz]
      ring
    exact mul_lt_of_lt_one_left hpos hq

theorem sin_trough (δ : ℝ) (k : ℤ) (h1 : -(1 / 2) ≤ δ) (h2 : δ ≤ 1 / 2) :
    Real.sin (3 * Real.pi / 2 + δ - k * (2 * Real.pi)) ≤ -(7 / 8) := by
  rw [Real.sin_sub_int_mul_two_pi]
  have e : 3 * Real.pi / 2 + δ = (δ + Real.pi / 2) + Real.pi := by ring
  rw [e, Real.sin_add_pi, Real.sin_add_pi_div_two]
  have hc := @Real.one_sub_sq_div_two_le_cos δ
  nlinarith

/-- Among any eight consecutive integer phase steps one lands within half a
radian of the trough of the sine. -/
theorem exists_phase (x : ℝ) :
    ∃ i : ℕ, i < 8 ∧ Real.sin (x + (i : ℝ)) ≤ -(7 / 8) := by
  have hpi : 0 < 2 * Real.pi := by linarith [Real.pi_pos]
  obtain ⟨k, hk⟩ : ∃ k : ℤ, k = ⌊(3 * Real.pi / 2 - 1 / 2 - x) / (2 * Real.pi)⌋ := ⟨_, rfl⟩
  have hk1 : (k : ℝ) * (2 * Real.pi) ≤ 3 * Real.pi / 2 - 1 / 2 - x := by
    have := Int.floor_le ((3 * Real.pi / 2 - 1 / 2 - x) / (2 * Real.pi))
    rw [← hk] at this
    exact (le_div_iff₀ hpi).mp this
  have hk2 : 3 * Real.pi / 2 - 1 / 2 - x < ((k : ℝ) + 1) * (2 * Real.pi) := by
    have := Int.lt_floor_add_one ((3 * Real.pi / 2 - 1 / 2 - x) / (2 * Real.pi))
    rw [← hk] at this
    exact (div_lt_iff₀ hpi).mp this
  obtain ⟨z, hz⟩ : ∃ z : ℝ, z = 3 * Real.pi / 2 - 1 / 2 - x - (k : ℝ) * (2 * Real.pi) := ⟨_, rfl⟩
  have hz0 : 0 ≤ z := by linarith
  have hz1 : z < 7 := by
    have := Real.pi_lt_d2
    linarith
  refine ⟨⌈z⌉₊, ?_, ?_⟩
  · have : ⌈z⌉₊ ≤ 7 := Nat.ceil_le.mpr (by exact_mod_cast le_of_lt hz1)
    omega
  · have c1 : z ≤ (⌈z⌉₊ : ℝ) := Nat.le_ceil z
    have c2 : (⌈z⌉₊ : ℝ) < z + 1 := Nat.ceil_lt_add_one hz0
    have e : x + (⌈z⌉₊ : ℝ)
        = 3 * Real.pi / 2 + ((⌈z⌉₊ : ℝ) - z - 1 / 2) - (k : ℝ) * (2 * Real.pi) := by
      rw [hz]
      ring
    rw [e]
    exact sin_trough _ k (by linarith) (by linarith)

theorem binSum_succ (data : List ℕ) (i n : ℕ) :
    binSum data i (n + 1) = (data.getD i 0 : ℚ) + binSum data (i + 1) n := by
  simp [binSum, List.range'_succ]

theorem bandSums_finite (data : List ℕ) :
    bandSums data =
      (some (binSum data 0 (bassEnd data.length)),
       some (binSum data (bassEnd data.length) (midEnd data.length - bassEnd data.length)),
       some (binSum data (midEnd data.length) (data.length - midEnd data.length))) := by
  obtain ⟨h1, h2⟩ := band_order data.length
  unfold bandSums
  simp only []
  rw [sumLoop_finite data 0 _ (Nat.zero_le _) (by omega),
    sumLoop_finite data _ _ h1 h2, sumLoop_finite data _ _ h2 (le_refl _)]
  simp only [Nat.sub_zero]

theorem getD_set (data : List ℕ) (i v k : ℕ) (hi : i < data.length) :
    (data.set i v).getD k 0 = if k = i then v else data.getD k 0 := by
  simp only [List.getD_eq_getElem?_getD, List.getElem?_set]
  by_cases h : i = k
  · subst h
    simp [hi]
  · have h' : ¬ k = i := fun e => h e.symm
    simp [h, h']

theorem binSum_set (data : List ℕ) (i v : ℕ) (hi : i < data.length) (n : ℕ) : ∀ lo : ℕ,
    binSum (data.set i v) lo n =
      binSum data lo n + (if lo ≤ i ∧ i < lo + n then (v : ℚ) - (data.getD i 0 : ℚ) else 0) := by
  induction n with
  | zero =>
    intro lo
    have c : ¬ (lo ≤ i ∧ i < lo + 0) := by omega
    rw [if_neg c]
    simp [binSum]
  | succ n ih =>
    intro lo
    rw [binSum_succ, binSum_succ, ih (lo + 1), getD_set data i v lo hi]
    by_cases h : lo = i
    · subst h
      have c1 : ¬ (lo + 1 ≤ lo ∧ lo < lo + 1 + n) := by omega
      have c2 : lo ≤ lo ∧ lo < lo + (n + 1) := by omega
      rw [if_pos rfl, if_neg c1, if_pos c2]
      ring
    · by_cases c : lo ≤ i ∧ i < lo + (n + 1)
      · have c1 : lo + 1 ≤ i ∧ i < lo + 1 + n := by omega
        rw [if_neg h, if_pos c1, if_pos c]
        ring
      · have c1 : ¬ (lo + 1 ≤ i ∧ i < lo + 1 + n) := by omega
        rw [if_neg h, if_neg c1, if_neg c]
        ring

theorem binSum_add (data : List ℕ) (n1 n2 : ℕ) : ∀ lo : ℕ,
    binSum data lo (n1 + n2) = binSum data lo n1 + binSum data (lo + n1) n2 := by
  induction n1 with
  | zero => intro lo; simp [binSum]
  | succ n ih =>
    intro lo
    have e : n + 1 + n2 = (n + n2) + 1 := by omega
    rw [e, binSum_succ, binSum_succ, ih (lo + 1)]
    have e2 : lo + 1 + n = lo + (n + 1) := by omega
    rw [e2]
    ring

theorem binSum_cons (a : ℕ) (l : List ℕ) (n : ℕ) : ∀ i : ℕ,
    binSum (a :: l) (i + 1) n = binSum l i n := by
  induction n with
  | zero => intro i; simp [binSum]
  | succ n ih =>
    intro i
    rw [binSum_succ, binSum_succ, ih (i + 1)]
    simp

theorem binSum_total (data : List ℕ) :
    binSum data 0 data.length = (data.map (fun v => (v : ℚ))).sum := by
  induction data with
  | nil => simp [binSum]
  | cons a l ih =>
    simp only [List.length_cons, List.map_cons, List.sum_cons]
    rw [binSum_succ, binSum_cons, ih]
    simp

theorem sumOver_indices (data : List ℕ) (lo hi : ℕ) :
    sumOver data (loopIndices lo hi) = binSum data lo (hi - lo) := by
  rw [loopIndices_eq]
  rfl

theorem bandSums_total (data : List ℕ) :
    binSum data 0 (bassEnd data.length)
      + binSum data (bassEnd data.length) (midEnd data.length - bassEnd data.length)
      + binSum data (midEnd data.length) (data.length - midEnd data.length)
      = (data.map (fun v => (v : ℚ))).sum := by
  obtain ⟨h1, h2⟩ := band_order data.length
  have t1 := binSum_add data (bassEnd data.length) (data.length - bassEnd data.length) 0
  have t2 := binSum_add data (midEnd data.length - bassEnd data.length)
    (data.length - midEnd data.length) (bassEnd data.length)
  have e1 : bassEnd data.length + (data.length - bassEnd data.length) = data.length := by omega
  have e2 : midEnd data.length - bassEnd data.length + (data.length - midEnd data.length)
      = data.length - bassEnd data.length := by omega
  have e3 : bassEnd data.length + (midEnd data.length - bassEnd data.length)
      = midEnd data.length := by omega
  rw [e1, Nat.zero_add] at t1
  rw [e2, e3] at t2
  rw [← binSum_total, t1, t2]
  ring

theorem bandSums_set (data : List ℕ) (i v : ℕ) (hi : i < data.length) :
    (i < bassEnd data.length ∧
      bandSums (data.set i v) =
        (some (binSum data 0 (bassEnd data.length) + ((v : ℚ) - (data.getD i 0 : ℚ))),
         some (binSum data (bassEnd data.length) (midEnd data.length - bassEnd data.length)),
         some (binSum data (midEnd data.length) (data.length - midEnd data.length)))) ∨
    (bassEnd data.length ≤ i ∧ i < midEnd data.length ∧
      bandSums (data.set i v) =
        (some (binSum data 0 (bassEnd data.length)),
         some (binSum data (bassEnd data.length) (midEnd data.length - bassEnd data.length)
          + ((v : ℚ) - (data.getD i 0 : ℚ))),
         some (binSum data (midEnd data.length) (data.length - midEnd data.length)))) ∨
    (midEnd data.length ≤ i ∧
      bandSums (data.set i v) =
        (some (binSum data 0 (bassEnd data.length)),
         some (binSum data (bassEnd data.length) (midEnd data.length - bassEnd data.length)),
         some (binSum data (midEnd data.length) (data.length - midEnd data.length)
          + ((v : ℚ) - (data.getD i 0 : ℚ))))) := by
  obtain ⟨h1, h2⟩ := band_order data.length
  have hset := bandSums_finite (data.set i v)
  rw [List.length_set] at hset
  rw [binSum_set data i v hi, binSum_set data i v hi, binSum_set data i v hi] at hset
  by_cases c1 : i < bassEnd data.length
  · left
    refine ⟨c1, ?_⟩
    rw [hset, if_pos (by omega), if_neg (by omega), if_neg (by omega)]
    simp
  · by_cases c2 : i < midEnd data.length
    · right; left
      refine ⟨by omega, c2, ?_⟩
      rw [hset, if_neg (by omega), if_pos (by omega), if_neg (by omega)]
      simp
    · right; right
      refine ⟨by omega, ?_⟩
      rw [hset, if_neg (by omega), if_neg (by omega), if_pos (by omega)]
      simp

/-! ## The claims -/

/-- C1: for every sample of length `len ≥ 3`, with `bassEnd = ⌊len / 10⌋`
and `midEnd = ⌊4 * len / 10⌋`: the three sums `getAudioData` accumulates
are the sums of the bins over the index ranges `[0, bassEnd)`,
`[bassEnd, midEnd)`, `[midEnd, len)`, and the band means are these sums
divided by the band width and by 255; the three ranges are pairwise
disjoint, an index lies in one of them exactly when it is below `len`, and
one after the other they are `0, 1, ..., len - 1`; the three sums add up to
the sum of all bins, and changing the value of any one bin changes exactly
one of the three sums, by the change of that bin. -/
theorem band_partition (data : List ℕ) (_h : 3 ≤ data.length) :
    bassEnd data.length = data.length / 10 ∧ midEnd data.length = 4 * data.length / 10 ∧
    bandSums data =
      (some (sumOver data (loopIndices 0 (bassEnd data.length))),
       some (sumOver data (loopIndices (bassEnd data.length) (midEnd data.length))),
       some (sumOver data (loopIndices (midEnd data.length) data.length))) ∧
    bandMeans data =
      (JSNum.div (JSNum.div (some (sumOver data (loopIndices 0 (bassEnd data.length))))
          (bassEnd data.length : ℚ)) 255,
       JSNum.div (JSNum.div
          (some (sumOver data (loopIndices (bassEnd data.length) (midEnd data.length))))
          ((midEnd data.length : ℚ) - (bassEnd data.length : ℚ))) 255,
       JSNum.div (JSNum.div (some (sumOver data (loopIndices (midEnd data.length) data.length)))
          ((data.length : ℚ) - (midEnd data.length : ℚ))) 255) ∧
    (∀ i, i ∈ loopIndices 0 (bassEnd data.length) →
      i ∉ loopIndices (bassEnd data.length) (midEnd data.length)) ∧
    (∀ i, i ∈ loopIndices 0 (bassEnd data.length) →
      i ∉ loopIndices (midEnd data.length) data.length) ∧
    (∀ i, i ∈ loopIndices (bassEnd data.length) (midEnd data.length) →
      i ∉ loopIndices (midEnd data.length) data.length) ∧
    (∀ i, (i ∈ loopIndices 0 (bassEnd data.length)
        ∨ i ∈ loopIndices (bassEnd data.length) (midEnd data.length)
        ∨ i ∈ loopIndices (midEnd data.length) data.length) ↔ i < data.length) ∧
    loopIndices 0 (bassEnd data.length) ++ loopIndices (bassEnd data.length) (midEnd data.length)
        ++ loopIndices (midEnd data.length) data.length = List.range data.length ∧
    (∃ b m g : ℚ, bandSums data = (some b, some m, some g) ∧
      b + m + g = (data.map (fun v => (v : ℚ))).sum ∧
      ∀ i v : ℕ, i < data.length →
        (i < bassEnd data.length ∧
          bandSums (data.set i v)
            = (some (b + ((v : ℚ) - (data.getD i 0 : ℚ))), some m, some g)) ∨
        (bassEnd data.length ≤ i ∧ i < midEnd data.length ∧
          bandSums (data.set i v)
            = (some b, some (m + ((v : ℚ) - (data.getD i 0 : ℚ))), some g)) ∨
        (midEnd data.length ≤ i ∧
          bandSums (data.set i v)
            = (some b, some m, some (g + ((v : ℚ) - (data.getD i 0 : ℚ)))))) := by
  obtain ⟨h1, h2⟩ := band_order data.length
  have hsums : bandSums data =
      (some (sumOver data (loopIndices 0 (bassEnd data.length))),
       some (sumOver data (loopIndices (bassEnd data.length) (midEnd data.length))),
       some (sumOver data (loopIndices (midEnd data.length) data.length))) := by
    rw [bandSums_finite, sumOver_indices, sumOver_indices, sumOver_indices, Nat.sub_zero]
  refine ⟨bassEnd_eq _, midEnd_eq _, hsums, ?_, ?_, ?_, ?_, ?_, ?_, ?_⟩
  · unfold bandMeans
    rw [hsums]
  · intro i hi hi'
    rw [mem_loopIndices] at hi hi'
    omega
  · intro i hi hi'
    rw [mem_loopIndices] at hi hi'
    omega
  · intro i hi hi'
    rw [mem_loopIndices] at hi hi'
    omega
  · intro i
    simp only [mem_loopIndices]
    omega
  · rw [loopIndices_append _ _ h1, loopIndices_append _ _ h2, loopIndices_eq,
      List.range_eq_range']
    rfl
  · exact ⟨_, _, _, bandSums_finite data, bandSums_total data, fun i v hi => bandSums_set data i v hi⟩

/-- Witness of C1 at the sample length the analyser delivers, 1024. -/
theorem band_partition_witness :
    3 ≤ (bassOnlySample 1024).length ∧
    (bassEnd (bassOnlySample 1024).length = (bassOnlySample 1024).length / 10 ∧ midEnd (bassOnlySample 1024).length = 4 * (bassOnlySample 1024).length / 10 ∧
    bandSums (bassOnlySample 1024) =
      (some (sumOver (bassOnlySample 1024) (loopIndices 0 (bassEnd (bassOnlySample 1024).length))),
       some (sumOver (bassOnlySample 1024) (loopIndices (bassEnd (bassOnlySample 1024).length) (midEnd (bassOnlySample 1024).length))),
       some (sumOver (bassOnlySample 1024) (loopIndices (midEnd (bassOnlySample 1024).length) (bassOnlySample 1024).length))) ∧
    bandMeans (bassOnlySample 1024) =
      (JSNum.div (JSNum.div (some (sumOver (bassOnlySample 1024) (loopIndices 0 (bassEnd (bassOnlySample 1024).length))))
          (bassEnd (bassOnlySample 1024).length : ℚ)) 255,
       JSNum.div (JSNum.div
          (some (sumOver (bassOnlySample 1024) (loopIndices (bassEnd (bassOnlySample 1024).length) (midEnd (bassOnlySample 1024).length))))
          ((midEnd (bassOnlySample 1024).length : ℚ) - (bassEnd (bassOnlySample 1024).length : ℚ))) 255,
       JSNum.div (JSNum.div (some (sumOver (bassOnlySample 1024) (loopIndices (midEnd (bassOnlySample 1024).length) (bassOnlySample 1024).length)))
          (((bassOnlySample 1024).length : ℚ) - (midEnd (bassOnlySample 1024).length : ℚ))) 255) ∧
    (∀ i, i ∈ loopIndices 0 (bassEnd (bassOnlySample 1024).length) →
      i ∉ loopIndices (bassEnd (bassOnlySample 1024).length) (midEnd (bassOnlySample 1024).length)) ∧
    (∀ i, i ∈ loopIndices 0 (bassEnd (bassOnlySample 1024).length) →
      i ∉ loopIndices (midEnd (bassOnlySample 1024).length) (bassOnlySample 1024).length) ∧
    (∀ i, i ∈ loopIndices (bassEnd (bassOnlySample 1024).length) (midEnd (bassOnlySample 1024).length) →
      i ∉ loopIndices (midEnd (bassOnlySample 1024).length) (bassOnlySample 1024).length) ∧
    (∀ i, (i ∈ loopIndices 0 (bassEnd (bassOnlySample 1024).length)
        ∨ i ∈ loopIndices (bassEnd (bassOnlySample 1024).length) (midEnd (bassOnlySample 1024).length)
        ∨ i ∈ loopIndices (midEnd (bassOnlySample 1024).length) (bassOnlySample 1024).length) ↔ i < (bassOnlySample 1024).length) ∧
    loopIndices 0 (bassEnd (bassOnlySample 1024).length) ++ loopIndices (bassEnd (bassOnlySample 1024).length) (midEnd (bassOnlySample 1024).length)
        ++ loopIndices (midEnd (bassOnlySample 1024).length) (bassOnlySample 1024).length = List.range (bassOnlySample 1024).length ∧
    (∃ b m g : ℚ, bandSums (bassOnlySample 1024) = (some b, some m, some g) ∧
      b + m + g = ((bassOnlySample 1024).map (fun v => (v : ℚ))).sum ∧
      ∀ i v : ℕ, i < (bassOnlySample 1024).length →
        (i < bassEnd (bassOnlySample 1024).length ∧
          bandSums ((bassOnlySample 1024).set i v)
            = (some (b + ((v : ℚ) - ((bassOnlySample 1024).getD i 0 : ℚ))), some m, some g)) ∨
        (bassEnd (bassOnlySample 1024).length ≤ i ∧ i < midEnd (bassOnlySample 1024).length ∧
          bandSums ((bassOnlySample 1024).set i v)
            = (some b, some (m + ((v : ℚ) - ((bassOnlySample 1024).getD i 0 : ℚ))), some g)) ∨
        (midEnd (bassOnlySample 1024).length ≤ i ∧
          bandSums ((bassOnlySample 1024).set i v)
            = (some b, some m, some (g + ((v : ℚ) - ((bassOnlySample 1024).getD i 0 : ℚ))))))) :=
  have hl : 3 ≤ (bassOnlySample 1024).length := by
    rw [bassOnlySample_length]
    decide
  ⟨hl, band_partition (bassOnlySample 1024) hl⟩

/-- C5: starting from the all-zero smoothed state, after any finite sequence
of `getAudioData` calls, each on a sample of length at least 10 with
magnitudes in `0..255` and with `bassBoost` and `speedSmoothing` in
`[0, 100]` chosen per call, the smoothed state is finite in every channel
and satisfies `overall = (bass + mid + high) / 3`. -/
theorem overall_invariant (calls : List Call)
    (h : ∀ c ∈ calls, 10 ≤ c.data.length ∧ (∀ x ∈ c.data, x ≤ 255) ∧
      0 ≤ c.bassBoost ∧ c.bassBoost ≤ 100 ∧ 0 ≤ c.speedSmoothing ∧ c.speedSmoothing ≤ 100) :
    ∃ b m g o : ℚ, runCalls FeatureVector.zero calls = FeatureVector.finite b m g o ∧
      o = (b + m + g) / 3 := by
  have hz : FeatureVector.zero = FeatureVector.finite 0 0 0 ((0 + 0 + 0) / 3) := by
    simp [FeatureVector.zero]
  obtain ⟨b, m, g, hfin⟩ := runCalls_invariant calls 0 0 0 (fun c hc => (h c hc).1)
  exact ⟨b, m, g, _, by rw [hz, hfin], rfl⟩

/-- Witness of C5 on two calls with different samples and parameters. -/
theorem overall_invariant_witness :
    (∀ c ∈ [Call.mk (List.replicate 10 255) 50 30, Call.mk (bassOnlySample 20) 100 0],
      10 ≤ c.data.length ∧ (∀ x ∈ c.data, x ≤ 255) ∧
      0 ≤ c.bassBoost ∧ c.bassBoost ≤ 100 ∧ 0 ≤ c.speedSmoothing ∧ c.speedSmoothing ≤ 100) ∧
    ∃ b m g o : ℚ,
      runCalls FeatureVector.zero
        [Call.mk (List.replicate 10 255) 50 30, Call.mk (bassOnlySample 20) 100 0]
        = FeatureVector.finite b m g o ∧ o = (b + m + g) / 3 :=
  have hyp : ∀ c ∈ [Call.mk (List.replicate 10 255) 50 30, Call.mk (bassOnlySample 20) 100 0],
      10 ≤ c.data.length ∧ (∀ x ∈ c.data, x ≤ 255) ∧
      0 ≤ c.bassBoost ∧ c.bassBoost ≤ 100 ∧ 0 ≤ c.speedSmoothing ∧ c.speedSmoothing ≤ 100 := by
    intro c hc
    simp only [List.mem_cons, List.mem_singleton, List.not_mem_nil, or_false] at hc
    rcases hc with rfl | rfl
    · norm_num
    · norm_num [bassOnlySample]
  ⟨hyp, overall_invariant _ hyp⟩

/-- C6: for every sample of length `len ≥ 10` whose first `⌊len / 10⌋` bins
are 255 and whose other bins are 0, the band means computed by
`getAudioData` are bass = 1, mid = 0, high = 0, and with `bassBoost = 100`
the raw features before smoothing are bass = 2, mid = 0, high = 0,
overall = 2/3. -/
theorem bass_only_scenario (data : List ℕ) (hlen : 10 ≤ data.length)
    (hbins : ∀ k, k < data.length →
      data.getD k 0 = if k < data.length / 10 then 255 else 0) :
    bandMeans data = (some 1, some 0, some 0) ∧
    rawFeatures 100 data = FeatureVector.finite 2 0 0 (2 / 3) := by
  obtain ⟨h1, h2, h3⟩ := band_bounds data.length hlen
  have hB : bassEnd data.length = data.length / 10 := bassEnd_eq _
  have s1 : binSum data 0 (bassEnd data.length) = (bassEnd data.length : ℚ) * ((255 : ℕ) : ℚ) := by
    apply binSum_const
    intro k _ hk
    rw [hbins k (by omega), if_pos (by omega)]
  have s2 : binSum data (bassEnd data.length) (midEnd data.length - bassEnd data.length)
      = ((midEnd data.length - bassEnd data.length : ℕ) : ℚ) * ((0 : ℕ) : ℚ) := by
    apply binSum_const
    intro k hk1 hk2
    rw [hbins k (by omega), if_neg (by omega)]
  have s3 : binSum data (midEnd data.length) (data.length - midEnd data.length)
      = ((data.length - midEnd data.length : ℕ) : ℚ) * ((0 : ℕ) : ℚ) := by
    apply binSum_const
    intro k hk1 hk2
    rw [hbins k (by omega), if_neg (by omega)]
  have e1 : (bassEnd data.length : ℚ) ≠ 0 := by
    exact_mod_cast (Nat.pos_iff_ne_zero.mp h1)
  have hmeans : bandMeans data = (some 1, some 0, some 0) := by
    rw [bandMeans_finite data hlen, s1, s2, s3]
    simp [e1]
  refine ⟨hmeans, ?_⟩
  unfold rawFeatures
  rw [hmeans]
  simp only [JSNum.mul, JSNum.add, JSNum.div, FeatureVector.finite]
  norm_num

/-- Witness of C6 at the sample length the analyser delivers, 1024. -/
theorem bass_only_scenario_witness :
    (10 ≤ (bassOnlySample 1024).length ∧
     ∀ k, k < (bassOnlySample 1024).length →
      (bassOnlySample 1024).getD k 0 = if k < (bassOnlySample 1024).length / 10 then 255 else 0) ∧
    (bandMeans (bassOnlySample 1024) = (some 1, some 0, some 0) ∧
     rawFeatures 100 (bassOnlySample 1024) = FeatureVector.finite 2 0 0 (2 / 3)) :=
  have hl : 10 ≤ (bassOnlySample 1024).length := by
    rw [bassOnlySample_length]
    decide
  have hb : ∀ k, k < (bassOnlySample 1024).length →
      (bassOnlySample 1024).getD k 0
        = if k < (bassOnlySample 1024).length / 10 then 255 else 0 := by
    intro k _
    rw [bassOnlySample_getD, bassOnlySample_length]
  ⟨⟨hl, hb⟩, bass_only_scenario (bassOnlySample 1024) hl hb⟩

/-- C2, as stated, fails: with `speedSmoothing = 0`, the all-zero previous
state and a sample of ten bins at 255, the raw features are `(1, 1, 1, 1)`
but `getAudioData` returns the previous state `(0, 0, 0, 0)`. -/
theorem instant_at_zero_refuted :
    rawFeatures 0 (List.replicate 10 255) = FeatureVector.finite 1 1 1 1 ∧
    getAudioData 0 0 FeatureVector.zero (some (List.replicate 10 255))
      = (some FeatureVector.zero, FeatureVector.zero) ∧
    (getAudioData 0 0 FeatureVector.zero (some (List.replicate 10 255))).1
      ≠ some (rawFeatures 0 (List.replicate 10 255)) := by
  have h : getAudioData 0 0 FeatureVector.zero (some (List.replicate 10 255))
      = (some FeatureVector.zero, FeatureVector.zero) := by
    simp only [getAudioData]
    rw [rawFeatures_loud]
    simp [smooth, smoothChannel, JSNum.add, JSNum.mul, FeatureVector.zero, FeatureVector.finite]
  refine ⟨rawFeatures_loud, h, ?_⟩
  rw [h, rawFeatures_loud]
  simp [FeatureVector.zero, FeatureVector.finite]

/-- C2, amended: with `speedSmoothing = 0`, for every previous smoothed state
and every sample of length at least 10, `getAudioData` returns the previous
smoothed state and leaves `smoothedValuesRef` at it, whatever the sample and
`bassBoost` are. -/
theorem frozen_at_zero (bassBoost : ℚ) (prev : FeatureVector) (data : List ℕ)
    (hlen : 10 ≤ data.length) :
    getAudioData bassBoost 0 prev (some data) = (some prev, prev) := by
  obtain ⟨b, m, g, _, hraw⟩ := rawFeatures_finite bassBoost data hlen
  have hs : smooth 0 prev (rawFeatures bassBoost data) = prev := by
    rw [hraw]
    simp only [smooth, FeatureVector.finite, smoothChannel_one]
  simp only [getAudioData, hs]

/-- Witness of the amended C2: previous state `(1, 0, 1/2, 1/2)`, ten bins at
255, `bassBoost = 50`. -/
theorem frozen_at_zero_witness :
    10 ≤ (List.replicate 10 255).length ∧
    getAudioData 50 0 (FeatureVector.finite 1 0 (1 / 2) (1 / 2)) (some (List.replicate 10 255))
      = (some (FeatureVector.finite 1 0 (1 / 2) (1 / 2)), FeatureVector.finite 1 0 (1 / 2) (1 / 2)) :=
  ⟨by decide, frozen_at_zero 50 _ (List.replicate 10 255) (by decide)⟩

/-- C3, as stated, fails: with `speedSmoothing = 100`, the all-zero previous
state and a sample of ten bins at 255, `getAudioData` returns the raw
features `(1, 1, 1, 1)`, not the previous state. -/
theorem frozen_at_hundred_refuted :
    getAudioData 0 100 FeatureVector.zero (some (List.replicate 10 255))
      = (some (FeatureVector.finite 1 1 1 1), FeatureVector.finite 1 1 1 1) ∧
    (getAudioData 0 100 FeatureVector.zero (some (List.replicate 10 255))).1
      ≠ some FeatureVector.zero := by
  have h : getAudioData 0 100 FeatureVector.zero (some (List.replicate 10 255))
      = (some (FeatureVector.finite 1 1 1 1), FeatureVector.finite 1 1 1 1) := by
    simp only [getAudioData]
    rw [rawFeatures_loud]
    simp [smooth, smoothChannel, JSNum.add, JSNum.mul, FeatureVector.zero, FeatureVector.finite]
  refine ⟨h, ?_⟩
  rw [h]
  simp [FeatureVector.zero, FeatureVector.finite]

/-- C3, amended: with `speedSmoothing = 100`, for every finite previous
smoothed state and every sample of length at least 10, `getAudioData`
returns the raw features of that sample (band means / 255, boosted bass,
overall) and stores them, whatever the previous state is. -/
theorem instant_at_hundred (bassBoost a b c d : ℚ) (data : List ℕ)
    (hlen : 10 ≤ data.length) :
    getAudioData bassBoost 100 (FeatureVector.finite a b c d) (some data)
      = (some (rawFeatures bassBoost data), rawFeatures bassBoost data) := by
  obtain ⟨rb, rm, rg, _, hraw⟩ := rawFeatures_finite bassBoost data hlen
  have hs : smooth 100 (FeatureVector.finite a b c d) (rawFeatures bassBoost data)
      = rawFeatures bassBoost data := by
    rw [hraw]
    simp only [smooth, FeatureVector.finite, smoothChannel_zero]
  simp only [getAudioData, hs]

/-- Witness of the amended C3: previous state `(1, 0, 1/2, 1/2)`, ten bins at
255, `bassBoost = 50`. -/
theorem instant_at_hundred_witness :
    10 ≤ (List.replicate 10 255).length ∧
    getAudioData 50 100 (FeatureVector.finite 1 0 (1 / 2) (1 / 2)) (some (List.replicate 10 255))
      = (some (rawFeatures 50 (List.replicate 10 255)), rawFeatures 50 (List.replicate 10 255)) :=
  ⟨by decide, instant_at_hundred 50 1 0 (1 / 2) (1 / 2) (List.replicate 10 255) (by decide)⟩

/-- C4, as stated, fails: on a sample of length 0, with the default
parameters and the all-zero previous state, the band means are not finite
and neither the returned vector nor the stored state is the previous
state. -/
theorem empty_sample_refuted :
    bandMeans [] = (none, none, none) ∧
    (getAudioData 50 30 FeatureVector.zero (some [])).1 ≠ some FeatureVector.zero ∧
    (getAudioData 50 30 FeatureVector.zero (some [])).2 ≠ FeatureVector.zero := by
  simp [getAudioData, smooth, smoothChannel, rawFeatures, bandMeans, bandSums, bassEnd_eq, midEnd_eq,
    sumLoop, forLoop, forLoopAux, JSNum.add, JSNum.div, JSNum.mul, FeatureVector.finite,
    FeatureVector.zero]

/-- C4, amended: on a sample of length 0 both band bounds are 0, every band
mean is the division `0 / 0`, and for every previous smoothed state and all
parameter values `getAudioData` returns, and stores in `smoothedValuesRef`,
a vector that is non-finite (`NaN`) in every channel. -/
theorem empty_sample_nan (bassBoost s : ℚ) (prev : FeatureVector) :
    bassEnd 0 = 0 ∧ midEnd 0 = 0 ∧
    sumLoop [] 0 (bassEnd 0) = some 0 ∧ bandMeans [] = (none, none, none) ∧
    getAudioData bassBoost s prev (some [])
      = (some ⟨none, none, none, none⟩, ⟨none, none, none, none⟩) := by
  simp [getAudioData, smooth, smoothChannel, rawFeatures, bandMeans, bandSums, bassEnd_eq, midEnd_eq,
    sumLoop, forLoop, forLoopAux, JSNum.add, JSNum.div, JSNum.mul]

/-- C7: feeding the same sample (length at least 10) `n` times with fixed
parameters, `speedSmoothing = s` in `[0, 100]`, from a finite state: in each
channel the smoothed value `x` after `n` calls satisfies
`x - raw = (1 - s / 100) ^ n * (x0 - raw)`, the distance to the raw value
does not grow with the next call, and it strictly shrinks when `0 < s` and
`x ≠ raw`. -/
theorem smoothing_contracts (bassBoost s : ℚ) (data : List ℕ) (a b c d : ℚ) (n : ℕ)
    (ch : Channel) (hlen : 10 ≤ data.length) (hs0 : 0 ≤ s) (hs1 : s ≤ 100) :
    ∃ raw x0 x x' : ℚ,
      (rawFeatures bassBoost data).get ch = some raw ∧
      (FeatureVector.finite a b c d).get ch = some x0 ∧
      (repeatCalls bassBoost s data n (FeatureVector.finite a b c d)).get ch = some x ∧
      (repeatCalls bassBoost s data (n + 1) (FeatureVector.finite a b c d)).get ch = some x' ∧
      x - raw = (1 - s / 100) ^ n * (x0 - raw) ∧
      |x' - raw| ≤ |x - raw| ∧
      (0 < s → x ≠ raw → |x' - raw| < |x - raw|) := by
  obtain ⟨rb, rm, rg, _, hraw⟩ := rawFeatures_finite bassBoost data hlen
  have hq0 : 0 ≤ 1 - s / 100 := by linarith
  have hq1 : 1 - s / 100 ≤ 1 := by linarith
  have hq : 0 < s → 1 - s / 100 < 1 := fun h => by linarith
  rw [repeatCalls_finite bassBoost s data _ _ _ _ hraw n,
    repeatCalls_finite bassBoost s data _ _ _ _ hraw (n + 1), hraw]
  cases ch
  · obtain ⟨k1, k2, k3⟩ := contraction (1 - s / 100) a (rb * (1 + bassBoost / 100)) n hq0 hq1
    exact ⟨_, _, _, _, rfl, rfl, rfl, rfl, k1, k2, fun h => k3 (hq h)⟩
  · obtain ⟨k1, k2, k3⟩ := contraction (1 - s / 100) b rm n hq0 hq1
    exact ⟨_, _, _, _, rfl, rfl, rfl, rfl, k1, k2, fun h => k3 (hq h)⟩
  · obtain ⟨k1, k2, k3⟩ := contraction (1 - s / 100) c rg n hq0 hq1
    exact ⟨_, _, _, _, rfl, rfl, rfl, rfl, k1, k2, fun h => k3 (hq h)⟩
  · obtain ⟨k1, k2, k3⟩ := contraction (1 - s / 100) d
      ((rb * (1 + bassBoost / 100) + rm + rg) / 3) n hq0 hq1
    exact ⟨_, _, _, _, rfl, rfl, rfl, rfl, k1, k2, fun h => k3 (hq h)⟩

/-- Witness of C7: ten bins at 255, `speedSmoothing = 30`, the all-zero
state, after two calls, bass channel. -/
theorem smoothing_contracts_witness :
    (10 ≤ (List.replicate 10 255).length ∧ (0 : ℚ) ≤ 30 ∧ (30 : ℚ) ≤ 100) ∧
    ∃ raw x0 x x' : ℚ,
      (rawFeatures 0 (List.replicate 10 255)).get Channel.bass = some raw ∧
      (FeatureVector.finite 0 0 0 0).get Channel.bass = some x0 ∧
      (repeatCalls 0 30 (List.replicate 10 255) 2 (FeatureVector.finite 0 0 0 0)).get Channel.bass
        = some x ∧
      (repeatCalls 0 30 (List.replicate 10 255) (2 + 1) (FeatureVector.finite 0 0 0 0)).get
        Channel.bass = some x' ∧
      x - raw = (1 - 30 / 100) ^ 2 * (x0 - raw) ∧
      |x' - raw| ≤ |x - raw| ∧
      ((0 : ℚ) < 30 → x ≠ raw → |x' - raw| < |x - raw|) :=
  ⟨⟨by decide, by norm_num, by norm_num⟩,
   smoothing_contracts 0 30 (List.replicate 10 255) 0 0 0 0 2 Channel.bass
    (by decide) (by norm_num) (by norm_num)⟩

/-- C8, evaluated on the code: after start, stop, teardown the one stream
and the one audio context have each been released twice; after two
start/stop cycles and teardown the first cycle's resources have been
released once and the second cycle's twice; after two starts and one stop
the first stream and context have never been released. -/
theorem release_counts :
    (run Driver.init [Event.startSucceeds, Event.stop, Event.teardown]).streamReleases 0 = 2 ∧
    (run Driver.init [Event.startSucceeds, Event.stop, Event.teardown]).contextReleases 0 = 2 ∧
    (run Driver.init [Event.startSucceeds, Event.stop, Event.startSucceeds, Event.stop,
      Event.teardown]).streamReleases 0 = 1 ∧
    (run Driver.init [Event.startSucceeds, Event.stop, Event.startSucceeds, Event.stop,
      Event.teardown]).contextReleases 0 = 1 ∧
    (run Driver.init [Event.startSucceeds, Event.stop, Event.startSucceeds, Event.stop,
      Event.teardown]).streamReleases 1 = 2 ∧
    (run Driver.init [Event.startSucceeds, Event.stop, Event.startSucceeds, Event.stop,
      Event.teardown]).contextReleases 1 = 2 ∧
    (run Driver.init [Event.startSucceeds, Event.startSucceeds, Event.stop]).streamReleases 0 = 0 ∧
    (run Driver.init [Event.startSucceeds, Event.startSucceeds, Event.stop]).contextReleases 0
      = 0 := by
  decide

/-- C9, as stated, fails: layer 1 is drawn after layer 0, yet its fill alpha
`1/2` is not larger than layer 0's `3/5`. -/
theorem closer_more_opaque_refuted :
    fillAlpha 0 = 3 / 5 ∧ fillAlpha 1 = 1 / 2 ∧ ¬ (fillAlpha 1 > fillAlpha 0) := by
  norm_num [fillAlpha, layerDepth, mountainLayers]

/-- C9, amended: the mountain pass fills the layers in index order 0, 1, 2,
and for layers `i < j` in `{0, 1, 2}` the fill alpha of `j` is smaller than
that of `i`: a layer drawn later is less opaque. -/
theorem later_layer_less_opaque (i j : ℕ) (hij : i < j) (_hj : j < mountainLayers) :
    mountainFills.map Prod.fst = [0, 1, 2] ∧ fillAlpha j < fillAlpha i := by
  refine ⟨by simp [mountainFills, forLoop, forLoopAux, mountainLayers], ?_⟩
  have h : (i : ℚ) < (j : ℚ) := by exact_mod_cast hij
  simp only [fillAlpha, layerDepth, mountainLayers]
  norm_num
  linarith

/-- Witness of the amended C9 at the layers 0 and 2. -/
theorem later_layer_less_opaque_witness :
    (0 < 2 ∧ 2 < mountainLayers) ∧
    (mountainFills.map Prod.fst = [0, 1, 2] ∧ fillAlpha 2 < fillAlpha 0) :=
  ⟨⟨by decide, by decide⟩, later_layer_less_opaque 0 2 (by decide) (by decide)⟩

/-- C10, evaluated on the code with the real sine: at every time, whenever
`audioData.high` is at most `1/8` (silence included), one of the fifty
particles gets a negative radius `size`. -/
theorem particle_radius_negative (time high : ℝ) (hhigh : high ≤ 1 / 8) :
    ∃ i : ℕ, i < particleCount ∧ particleSize Real.sin time i high < 0 := by
  obtain ⟨i, hi, hsin⟩ := exists_phase (time * 2)
  refine ⟨i, ?_, ?_⟩
  · unfold particleCount
    omega
  · unfold particleSize
    norm_num
    nlinarith

/-- Witness of the C10 theorem at time 0 and silence. -/
theorem particle_radius_negative_witness :
    (0 : ℝ) ≤ 1 / 8 ∧ ∃ i : ℕ, i < particleCount ∧ particleSize Real.sin 0 i 0 < 0 :=
  ⟨by norm_num, particle_radius_negative 0 0 (by norm_num)⟩

end VaporVisuals
